import Mathlib

/-!
# Coffee Shop Management — verification of the order/inventory transaction logic

Shallow embedding of `coffee_shop_app.py`.  The Python program keeps its state
in a Streamlit session (`st.session_state`): a menu dict, an inventory dict,
an order history list, an order counter, a daily-sales accumulator and an
optional current order.  We embed:

* Python `dict` (insertion-ordered, string keys) as an association list
  `List (String × α)`; assignment to an existing key replaces the value in
  place, assignment to a fresh key appends at the end.
* Python `float` money amounts as `ℚ` (the program only ever adds and
  multiplies decimal literals).
* inventory quantities as `ℤ` (the program can drive them negative),
  order-line quantities as `ℕ` (the UI widget enforces `min_value=1`).
* `datetime.now()` timestamps are omitted: no property here mentions them.

Operations are embedded as pure state transformers; the UI event handlers of
`create_order_page`, `complete_order`, the cancel branch and
`add_menu_item_page` become an `Op` type acted on by `applyOp`.
-/

namespace CoffeeShop

/-- Python `dict` with string keys, as an insertion-ordered association list. -/
abbrev Dict (α : Type) : Type := List (String × α)

/-- `d[k]` as an option (`None` when the key is absent): first binding wins,
but keys are kept unique by `dictSet`/`dictModify`. -/
def dictGet {α : Type} : Dict α → String → Option α
  | [], _ => none
  | (k', v) :: rest, k => if k' = k then some v else dictGet rest k

/-- Python `k in d`. -/
def dictContains {α : Type} (d : Dict α) (k : String) : Bool :=
  (dictGet d k).isSome

/-- Python `d[k] = v`: replace in place when the key exists (keeping its
position), otherwise append at the end — CPython dict insertion-order
semantics. -/
def dictSet {α : Type} : Dict α → String → α → Dict α
  | [], k, v => [(k, v)]
  | (k', v') :: rest, k, v =>
    if k' = k then (k, v) :: rest else (k', v') :: dictSet rest k v

/-- In-place mutation of the value stored at `k` (used for
`inventory[g].quantity -= q`); no-op when the key is absent. -/
def dictModify {α : Type} : Dict α → String → (α → α) → Dict α
  | [], _, _ => []
  | (k', v) :: rest, k, f =>
    if k' = k then (k', f v) :: rest else (k', v) :: dictModify rest k f

/-- Money amounts: Python decimal float literals, embedded as `ℚ`. -/
abbrev Money : Type := ℚ

/-- `class MenuItem` (`coffee_shop_app.py` lines 62–75). -/
structure MenuItem where
  name : String
  price : Money
  category : String
  ingredients : List String
  deriving DecidableEq

/-- `class InventoryItem` (lines 77–94). -/
structure InventoryItem where
  name : String
  quantity : Int
  unit : String
  min_stock : Int
  deriving DecidableEq

/-- `InventoryItem.is_low_stock` (line 84). -/
def InventoryItem.is_low_stock (it : InventoryItem) : Bool :=
  it.quantity ≤ it.min_stock

/-- An order's `status` field (strings `"pending"`/`"completed"`/`"cancelled"`
in the source). -/
inductive OrderStatus : Type
  | pending
  | completed
  | cancelled
  deriving DecidableEq

/-- One line-item dict appended by `Order.add_item` (lines 106–112). -/
structure OrderLine where
  name : String
  price : Money
  quantity : Nat
  category : String
  subtotal : Money
  deriving DecidableEq

/-- `class Order` (lines 96–113); the `timestamp` field is omitted. -/
structure Order where
  order_id : Nat
  customer_name : String
  items : List OrderLine
  total : Money
  status : OrderStatus
  deriving DecidableEq

/-- `Order.__init__` (lines 97–103). -/
def Order.new (order_id : Nat) (customer_name : String) : Order :=
  { order_id := order_id, customer_name := customer_name, items := [],
    total := 0, status := .pending }

/-- `Order.add_item` (lines 105–113): append the snapshot line and bump the
total.  Note: no status check of any kind. -/
def Order.add_item (o : Order) (menu_item : MenuItem) (quantity : Nat) : Order :=
  { o with
    items := o.items ++ [{ name := menu_item.name, price := menu_item.price,
                           quantity := quantity, category := menu_item.category,
                           subtotal := menu_item.price * (quantity : Money) }],
    total := o.total + menu_item.price * (quantity : Money) }

/-- `st.session_state.menu`. -/
abbrev Menu : Type := Dict MenuItem

/-- `st.session_state.inventory`. -/
abbrev Inventory : Type := Dict InventoryItem

/-- The availability loop of `create_order_page` (lines 283–289): scan the
recipe in list order and stop at the first ingredient that is *present in the
inventory dict* and has `quantity < quantity_requested`.  Ingredients absent
from the inventory are skipped entirely (`if ingredient in st.session_state.inventory`).
Returns the name reported in the error message, `none` when the line is
accepted. -/
def findDeficient (inv : Inventory) (ingredients : List String) (q : Nat) :
    Option String :=
  ingredients.find? fun g =>
    match dictGet inv g with
    | some it => decide (it.quantity < (q : Int))
    | none => false

/-- One step of the deduction loop of `complete_order` (lines 324–326):
`if ingredient in inventory: inventory[ingredient].quantity -= item['quantity']`. -/
def decrementIngredient (inv : Inventory) (g : String) (q : Nat) : Inventory :=
  if dictContains inv g then
    dictModify inv g (fun it => { it with quantity := it.quantity - (q : Int) })
  else inv

/-- The outer deduction loop of `complete_order` (lines 322–326): for each
line, look the item's *current* menu entry up by name and decrement every
recipe ingredient by the line's quantity.  A line whose name is missing from
the menu raises `KeyError` in Python (line 323) *after* the earlier lines'
ingredients were already decremented in place, and those mutations persist in
the session; `.error` returns exactly that partially-decremented ledger,
`.ok` the fully-decremented one. -/
def deductItems (menu : Menu) : Inventory → List OrderLine → Except Inventory Inventory
  | inv, [] => .ok inv
  | inv, line :: rest =>
    match dictGet menu line.name with
    | none => .error inv
    | some mi =>
      deductItems menu
        (mi.ingredients.foldl (fun acc g => decrementIngredient acc g line.quantity) inv)
        rest

/-- The whole session state (`init_session_state`, lines 126–145). -/
structure AppState where
  menu : Menu
  inventory : Inventory
  orders : List Order
  order_counter : Nat
  daily_sales : Money
  current_order : Option Order
  deriving DecidableEq

/-- `complete_order(order)` (lines 319–330): deduct ingredients per the
*current* menu, set status to completed, append to history, add the total to
the daily-sales accumulator.  Note: no status check of any kind.  When the
deduction loop hits a `KeyError`, the exception propagates out of the
function: the decrements applied so far persist (in-place mutation of session
state) but the status/history/sales lines are never reached — `.error` is
that crashed session state. -/
def complete_order (st : AppState) (o : Order) : Except AppState AppState :=
  match deductItems st.menu st.inventory o.items with
  | .error inv' => .error { st with inventory := inv' }
  | .ok inv' =>
    .ok { st with inventory := inv',
                  orders := st.orders ++ [{ o with status := .completed }],
                  daily_sales := st.daily_sales + o.total }

/-- The catalog upsert of `add_menu_item_page` (lines 370–390): reject empty
name, `price ≤ 0`, empty category (each an early `return` that mutates
nothing); otherwise `st.session_state.menu[name] = MenuItem(...)`.  The
ingredient list arrives already split into lines (the textarea splitting is
presentation-layer parsing). -/
def menu_upsert (menu : Menu) (name : String) (price : Money) (category : String)
    (ingredients : List String) : Option Menu :=
  if name = "" then none
  else if price ≤ 0 then none
  else if category = "" then none
  else some (dictSet menu name
    { name := name, price := price, category := category, ingredients := ingredients })

/-- The user-triggered events of the order-processing pages: the four
Order-Processor operations plus the catalog upsert. -/
inductive Op : Type
  | startOrder (customer_name : String)
  | addLine (item_name : String) (quantity : Nat)
  | completeOrder
  | cancelOrder
  | menuUpsert (name : String) (price : Money) (category : String)
      (ingredients : List String)

/-- Is this `Op` a catalog edit? -/
def Op.isMenuUpsert : Op → Bool
  | .menuUpsert .. => true
  | _ => false

/-- `applyOp` embeds the event handlers.  A rejected event (button not shown,
validation error, insufficient stock) leaves the state unchanged:

* `startOrder` — the Start New Order button (lines 258–263), only shown when
  no current order exists;
* `addLine` — the Add to Order button (lines 279–294): check every recipe
  ingredient via `findDeficient`, then `order.add_item`;
* `completeOrder` — the Complete Order button (lines 306–310), only shown
  when the current order has items; calls `complete_order` and clears the
  current order.  On a `KeyError` the exception aborts the handler before
  line 308: the partial decrements persist and the current order stays set;
* `cancelOrder` — the Cancel Order button (lines 312–317): set status to
  cancelled, append to history, clear the current order; no stock or sales
  mutation;
* `menuUpsert` — the Add Menu Item form (lines 370–390). -/
def applyOp (st : AppState) : Op → AppState
  | .startOrder c =>
    match st.current_order with
    | none =>
      { st with current_order := some (Order.new st.order_counter c),
                order_counter := st.order_counter + 1 }
    | some _ => st
  | .addLine item_name q =>
    match st.current_order with
    | none => st
    | some o =>
      match dictGet st.menu item_name with
      | none => st
      | some mi =>
        match findDeficient st.inventory mi.ingredients q with
        | some _ => st
        | none => { st with current_order := some (o.add_item mi q) }
  | .completeOrder =>
    match st.current_order with
    | none => st
    | some o =>
      if o.items = [] then st
      else
        match complete_order st o with
        | .error stc => stc
        | .ok st' => { st' with current_order := none }
  | .cancelOrder =>
    match st.current_order with
    | none => st
    | some o =>
      if o.items = [] then st
      else
        { st with orders := st.orders ++ [{ o with status := .cancelled }],
                  current_order := none }
  | .menuUpsert name price category ingredients =>
    match menu_upsert st.menu name price category ingredients with
    | none => st
    | some m => { st with menu := m }

/-- Run a sequence of UI events. -/
def runOps (st : AppState) (ops : List Op) : AppState :=
  ops.foldl applyOp st

/-- `setup_default_menu` (lines 147–161). -/
def default_menu : Menu :=
  [("Espresso", { name := "Espresso", price := 2.5, category := "Coffee",
                  ingredients := ["Coffee beans", "Water"] }),
   ("Americano", { name := "Americano", price := 3, category := "Coffee",
                   ingredients := ["Coffee beans", "Water"] }),
   ("Cappuccino", { name := "Cappuccino", price := 4, category := "Coffee",
                    ingredients := ["Coffee beans", "Milk", "Water"] }),
   ("Latte", { name := "Latte", price := 4.5, category := "Coffee",
               ingredients := ["Coffee beans", "Milk", "Water"] }),
   ("Mocha", { name := "Mocha", price := 5, category := "Coffee",
               ingredients := ["Coffee beans", "Milk", "Chocolate", "Water"] }),
   ("Croissant", { name := "Croissant", price := 3.5, category := "Pastry",
                   ingredients := ["Flour", "Butter"] }),
   ("Muffin", { name := "Muffin", price := 2.75, category := "Pastry",
                ingredients := ["Flour", "Sugar", "Eggs"] }),
   ("Green Tea", { name := "Green Tea", price := 2, category := "Tea",
                   ingredients := ["Tea leaves", "Water"] })]

/-- `setup_default_inventory` (lines 163–178). -/
def default_inventory : Inventory :=
  [("Coffee beans", { name := "Coffee beans", quantity := 100, unit := "kg", min_stock := 20 }),
   ("Milk", { name := "Milk", quantity := 50, unit := "liters", min_stock := 10 }),
   ("Water", { name := "Water", quantity := 200, unit := "liters", min_stock := 50 }),
   ("Sugar", { name := "Sugar", quantity := 25, unit := "kg", min_stock := 5 }),
   ("Chocolate", { name := "Chocolate", quantity := 15, unit := "kg", min_stock := 3 }),
   ("Flour", { name := "Flour", quantity := 30, unit := "kg", min_stock := 5 }),
   ("Butter", { name := "Butter", quantity := 10, unit := "kg", min_stock := 2 }),
   ("Eggs", { name := "Eggs", quantity := 100, unit := "pieces", min_stock := 20 }),
   ("Tea leaves", { name := "Tea leaves", quantity := 5, unit := "kg", min_stock := 1 })]

/-- The state `init_session_state` builds on first load (lines 126–145). -/
def initState : AppState :=
  { menu := default_menu, inventory := default_inventory, orders := [],
    order_counter := 1, daily_sales := 0, current_order := none }

/-- `completed_orders = [o for o in orders if o.status == "completed"]`
(line 404). -/
def completedOrders (orders : List Order) : List Order :=
  orders.filter fun o => decide (o.status = .completed)

/-- The three metrics of `daily_report` (lines 406–417): completed-order
count, the daily-sales accumulator, and the average guarded by
`if completed_orders:` (so the division is only performed when the list is
non-empty). -/
def daily_report (orders : List Order) (daily_sales : Money) :
    Nat × Money × Money :=
  let completed := completedOrders orders
  (completed.length, daily_sales,
    if completed = [] then 0 else daily_sales / (completed.length : Money))

/-- One line of the `item_count` aggregation of `daily_report` (line 426):
`item_count[name] = item_count.get(name, 0) + item['quantity']`. -/
def countStep (acc : Dict Nat) (l : OrderLine) : Dict Nat :=
  dictSet acc l.name ((dictGet acc l.name).getD 0 + l.quantity)

/-- The `item_count` aggregation of `daily_report` (lines 422–426), over the
completed orders' lines, in a dict that keeps first-encountered key order. -/
def item_count (completed : List Order) : Dict Nat :=
  completed.foldl (fun acc o => o.items.foldl countStep acc) []

/-- The Popular Items table (lines 428–432):
`pd.DataFrame(list(item_count.items())).sort_values('Quantity Sold', ascending=False)`.
pandas implements single-key descending sort by computing the *ascending*
argsort and reversing it (`nargsort` in `pandas/core/sorting.py`:
`indexer = indexer[::-1]`); at these array sizes numpy's `quicksort` is an
insertion sort, which is stable.  So the rows come out as the reversal of a
stable ascending sort by quantity — ties end up in *reverse*
first-encountered order. -/
def popular_items (orders : List Order) : List (String × Nat) :=
  (List.insertionSort (fun a b : String × Nat => a.2 ≤ b.2)
    (item_count (completedOrders orders))).reverse

/-! ## Derived accounting functions -/

/-- Stock consumed from ingredient `g` by one order line, per the *current*
menu: (multiplicity of `g` in the recipe) × (line quantity); `0` when the
line's item name is no longer in the menu. -/
def lineConsumption (menu : Menu) (l : OrderLine) (g : String) : Int :=
  match dictGet menu l.name with
  | some mi => (mi.ingredients.count g : Int) * (l.quantity : Int)
  | none => 0

/-- Stock consumed from ingredient `g` by a list of order lines. -/
def itemsConsumption (menu : Menu) (items : List OrderLine) (g : String) : Int :=
  (items.map fun l => lineConsumption menu l g).sum

/-- Stock consumed from ingredient `g` by the completed orders of a history. -/
def historyConsumption (menu : Menu) (orders : List Order) (g : String) : Int :=
  ((completedOrders orders).map fun o => itemsConsumption menu o.items g).sum

/-- Sum of the totals of the completed orders of a history. -/
def completedTotal (orders : List Order) : Money :=
  ((completedOrders orders).map Order.total).sum

/-! ## Dictionary lemmas -/

theorem dictGet_dictSet {α : Type} (d : Dict α) (k q : String) (v : α) :
    dictGet (dictSet d k v) q = if k = q then some v else dictGet d q := by
  induction d with
  | nil => simp [dictSet, dictGet]
  | cons hd tl ih =>
    obtain ⟨k', v'⟩ := hd
    by_cases hk : k' = k
    · subst hk
      by_cases hq : k' = q <;> simp [dictSet, dictGet, hq]
    · by_cases hq : k' = q
      · subst hq
        simp [dictSet, dictGet, hk, Ne.symm hk]
      · simp [dictSet, dictGet, hk, hq, ih]

theorem dictGet_dictModify {α : Type} (d : Dict α) (k q : String) (f : α → α) :
    dictGet (dictModify d k f) q =
      if k = q then (dictGet d q).map f else dictGet d q := by
  induction d with
  | nil => simp [dictModify, dictGet]
  | cons hd tl ih =>
    obtain ⟨k', v'⟩ := hd
    by_cases hk : k' = k
    · subst hk
      by_cases hq : k' = q <;> simp [dictModify, dictGet, hq]
    · by_cases hq : k' = q
      · subst hq
        simp [dictModify, dictGet, hk, Ne.symm hk]
      · simp [dictModify, dictGet, hk, hq, ih]

theorem dictGet_mem {α : Type} {d : Dict α} {k : String} {v : α}
    (h : dictGet d k = some v) : (k, v) ∈ d := by
  induction d with
  | nil => simp [dictGet] at h
  | cons hd tl ih =>
    obtain ⟨k', v'⟩ := hd
    by_cases hk : k' = k
    · subst hk
      simp [dictGet] at h
      simp [h]
    · simp [dictGet, hk] at h
      exact List.mem_cons_of_mem _ (ih h)

theorem dictSet_of_not_contains {α : Type} {d : Dict α} {k : String}
    (h : dictContains d k = false) (v : α) : dictSet d k v = d ++ [(k, v)] := by
  induction d with
  | nil => simp [dictSet]
  | cons hd tl ih =>
    obtain ⟨k', v'⟩ := hd
    by_cases hk : k' = k
    · subst hk
      simp [dictContains, dictGet] at h
    · simp [dictContains, dictGet, hk] at h
      simp [dictSet, hk, ih (by simp [dictContains, h])]

theorem dictSet_keys_of_contains {α : Type} {d : Dict α} {k : String}
    (h : dictContains d k = true) (v : α) :
    (dictSet d k v).map Prod.fst = d.map Prod.fst := by
  induction d with
  | nil => simp [dictContains, dictGet] at h
  | cons hd tl ih =>
    obtain ⟨k', v'⟩ := hd
    by_cases hk : k' = k
    · subst hk
      simp [dictSet]
    · simp [dictContains, dictGet, hk] at h
      simp [dictSet, hk, ih h]

/-! ## Inventory-deduction lemmas -/

theorem dictGet_decrementIngredient (inv : Inventory) (g : String) (q : Nat)
    (g' : String) :
    dictGet (decrementIngredient inv g q) g' =
      if g = g' then
        (dictGet inv g').map fun it => { it with quantity := it.quantity - (q : Int) }
      else dictGet inv g' := by
  unfold decrementIngredient
  cases hc : dictContains inv g with
  | true => simp [dictGet_dictModify]
  | false =>
    have hnone : dictGet inv g = none := by
      cases h : dictGet inv g with
      | none => rfl
      | some it => simp [dictContains, h] at hc
    by_cases hg : g = g'
    · subst hg
      simp [hnone]
    · simp [hg]

theorem dictGet_foldl_decrement (L : List String) (inv : Inventory) (q : Nat)
    (g : String) :
    dictGet (L.foldl (fun acc x => decrementIngredient acc x q) inv) g =
      (dictGet inv g).map fun it =>
        { it with quantity := it.quantity - (L.count g : Int) * (q : Int) } := by
  induction L generalizing inv with
  | nil =>
    cases h : dictGet inv g <;> simp [h]
  | cons x L ih =>
    rw [List.foldl_cons, ih, dictGet_decrementIngredient]
    by_cases hx : x = g
    · subst hx
      cases h : dictGet inv x <;>
        simp [h, List.count_cons, Option.map_map, Function.comp]
      ring
    · cases h : dictGet inv g <;>
        simp [h, List.count_cons, Ne.symm hx, hx]

theorem dictGet_deductItems {menu : Menu} {items : List OrderLine}
    {inv inv' : Inventory} (h : deductItems menu inv items = .ok inv')
    (g : String) :
    dictGet inv' g = (dictGet inv g).map fun it =>
      { it with quantity := it.quantity - itemsConsumption menu items g } := by
  induction items generalizing inv with
  | nil =>
    simp [deductItems] at h
    subst h
    cases hg : dictGet inv g <;> simp [hg, itemsConsumption]
  | cons line rest ih =>
    rw [deductItems] at h
    cases hm : dictGet menu line.name with
    | none => rw [hm] at h; exact absurd h (by simp)
    | some mi =>
      rw [hm] at h
      rw [ih h, dictGet_foldl_decrement]
      cases hg : dictGet inv g <;>
        simp [hg, itemsConsumption, lineConsumption, hm, Option.map_map,
          Function.comp]
      ring

/-- When every line of the order names a current menu entry, the deduction
loop cannot hit a `KeyError`. -/
theorem deductItems_ok_of_mem {menu : Menu} {items : List OrderLine}
    (h : ∀ l ∈ items, (dictGet menu l.name).isSome = true) :
    ∀ inv, ∃ inv', deductItems menu inv items = .ok inv' := by
  induction items with
  | nil => exact fun inv => ⟨inv, rfl⟩
  | cons line rest ih =>
    intro inv
    have hl := h line (List.mem_cons_self line rest)
    cases hm : dictGet menu line.name with
    | none => rw [hm] at hl; simp at hl
    | some mi =>
      obtain ⟨inv', hinv'⟩ := ih (fun l hl' => h l (List.mem_cons_of_mem line hl'))
        (mi.ingredients.foldl (fun acc g => decrementIngredient acc g line.quantity) inv)
      refine ⟨inv', ?_⟩
      rw [deductItems, hm]
      exact hinv'

theorem complete_order_ok {st : AppState} {o : Order} {st' : AppState}
    (h : complete_order st o = .ok st') :
    st'.menu = st.menu ∧
    st'.orders = st.orders ++ [{ o with status := .completed }] ∧
    st'.daily_sales = st.daily_sales + o.total ∧
    st'.order_counter = st.order_counter ∧
    st'.current_order = st.current_order ∧
    deductItems st.menu st.inventory o.items = .ok st'.inventory := by
  unfold complete_order at h
  cases hd : deductItems st.menu st.inventory o.items with
  | error inv' => rw [hd] at h; exact absurd h (by simp)
  | ok inv' =>
    rw [hd] at h
    simp only [Except.ok.injEq] at h
    subst h
    simp

/-- The crashed run: everything but the (partially-decremented) inventory is
as it was. -/
theorem complete_order_error {st : AppState} {o : Order} {stc : AppState}
    (h : complete_order st o = .error stc) :
    stc.menu = st.menu ∧
    stc.orders = st.orders ∧
    stc.daily_sales = st.daily_sales ∧
    stc.order_counter = st.order_counter ∧
    stc.current_order = st.current_order ∧
    deductItems st.menu st.inventory o.items = .error stc.inventory := by
  unfold complete_order at h
  cases hd : deductItems st.menu st.inventory o.items with
  | ok inv' => rw [hd] at h; exact absurd h (by simp)
  | error inv' =>
    rw [hd] at h
    simp only [Except.error.injEq] at h
    subst h
    simp

/-! ## History accounting lemmas -/

theorem historyConsumption_append (menu : Menu) (l1 l2 : List Order) (g : String) :
    historyConsumption menu (l1 ++ l2) g =
      historyConsumption menu l1 g + historyConsumption menu l2 g := by
  simp [historyConsumption, completedOrders, List.filter_append]

theorem historyConsumption_cancelled (menu : Menu) (o : Order) (g : String) :
    historyConsumption menu [{ o with status := .cancelled }] g = 0 := by
  simp [historyConsumption, completedOrders]

theorem historyConsumption_completed (menu : Menu) (o : Order) (g : String) :
    historyConsumption menu [{ o with status := .completed }] g =
      itemsConsumption menu o.items g := by
  simp [historyConsumption, completedOrders]

theorem completedTotal_append (l1 l2 : List Order) :
    completedTotal (l1 ++ l2) = completedTotal l1 + completedTotal l2 := by
  simp [completedTotal, completedOrders, List.filter_append]

theorem completedTotal_cancelled (o : Order) :
    completedTotal [{ o with status := .cancelled }] = 0 := by
  simp [completedTotal, completedOrders]

theorem completedTotal_completed (o : Order) :
    completedTotal [{ o with status := .completed }] = o.total := by
  simp [completedTotal, completedOrders]

/-- Closing an unchanged-ledger step: a zero consumption delta leaves every
entry as it was. -/
theorem ledger_unchanged_goal {inv : Inventory} {g : String} {it : InventoryItem}
    (hg : dictGet inv g = some it) (d : Int) (hd : d = 0) :
    dictGet inv g = some { it with quantity := it.quantity - d } := by
  subst hd
  simpa using hg

/-- Exhaustive characterization of what one UI event can do to the state:
either it is rejected (state unchanged) or it has one of the five successful
shapes. -/
theorem applyOp_cases (st : AppState) (op : Op) :
    applyOp st op = st ∨
    (∃ c, op = .startOrder c ∧ st.current_order = none ∧ applyOp st op =
       { st with current_order := some (Order.new st.order_counter c),
                 order_counter := st.order_counter + 1 }) ∨
    (∃ nm q o mi, op = .addLine nm q ∧ st.current_order = some o ∧
       dictGet st.menu nm = some mi ∧
       findDeficient st.inventory mi.ingredients q = none ∧
       applyOp st op = { st with current_order := some (o.add_item mi q) }) ∨
    (∃ o st', op = .completeOrder ∧ st.current_order = some o ∧ o.items ≠ [] ∧
       complete_order st o = .ok st' ∧
       applyOp st op = { st' with current_order := none }) ∨
    (∃ o stc, op = .completeOrder ∧ st.current_order = some o ∧ o.items ≠ [] ∧
       complete_order st o = .error stc ∧ applyOp st op = stc) ∨
    (∃ o, op = .cancelOrder ∧ st.current_order = some o ∧ o.items ≠ [] ∧
       applyOp st op =
         { st with orders := st.orders ++ [{ o with status := .cancelled }],
                   current_order := none }) ∨
    (∃ name price category ingredients m, op = .menuUpsert name price category ingredients ∧
       menu_upsert st.menu name price category ingredients = some m ∧
       applyOp st op = { st with menu := m }) := by
  cases op with
  | startOrder c =>
    cases hco : st.current_order with
    | none =>
      exact Or.inr (Or.inl ⟨c, rfl, rfl, by simp [applyOp, hco]⟩)
    | some o => exact Or.inl (by simp [applyOp, hco])
  | addLine nm q =>
    cases hco : st.current_order with
    | none => exact Or.inl (by simp [applyOp, hco])
    | some o =>
      cases hmi : dictGet st.menu nm with
      | none => exact Or.inl (by simp [applyOp, hco, hmi])
      | some mi =>
        cases hfd : findDeficient st.inventory mi.ingredients q with
        | some g => exact Or.inl (by simp [applyOp, hco, hmi, hfd])
        | none =>
          exact Or.inr (Or.inr (Or.inl
            ⟨nm, q, o, mi, rfl, rfl, hmi, hfd, by simp [applyOp, hco, hmi, hfd]⟩))
  | completeOrder =>
    cases hco : st.current_order with
    | none => exact Or.inl (by simp [applyOp, hco])
    | some o =>
      by_cases hit : o.items = []
      · exact Or.inl (by simp [applyOp, hco, hit])
      · cases hc : complete_order st o with
        | error stc =>
          exact Or.inr (Or.inr (Or.inr (Or.inr (Or.inl
            ⟨o, stc, rfl, rfl, hit, hc, by simp [applyOp, hco, hit, hc]⟩))))
        | ok st' =>
          exact Or.inr (Or.inr (Or.inr (Or.inl
            ⟨o, st', rfl, rfl, hit, hc, by simp [applyOp, hco, hit, hc]⟩)))
  | cancelOrder =>
    cases hco : st.current_order with
    | none => exact Or.inl (by simp [applyOp, hco])
    | some o =>
      by_cases hit : o.items = []
      · exact Or.inl (by simp [applyOp, hco, hit])
      · exact Or.inr (Or.inr (Or.inr (Or.inr (Or.inr (Or.inl
          ⟨o, rfl, rfl, hit, by simp [applyOp, hco, hit]⟩)))))
  | menuUpsert name price category ingredients =>
    cases hm : menu_upsert st.menu name price category ingredients with
    | none => exact Or.inl (by simp [applyOp, hm])
    | some m =>
      exact Or.inr (Or.inr (Or.inr (Or.inr (Or.inr (Or.inr
        ⟨name, price, category, ingredients, m, rfl, hm, by simp [applyOp, hm]⟩)))))

/-- Every catalog entry's stored `name` is its key.  True of every menu the
program builds: `setup_default_menu` stores `menu[item.name] = item` and
`add_menu_item_page` stores `menu[name] = MenuItem(name, ...)`. -/
def MenuCoherent (m : Menu) : Prop :=
  ∀ k mi, dictGet m k = some mi → mi.name = k

/-- Every line of the pending order (if any) names a current menu entry.
Lines are only ever added from the menu selectbox, and nothing deletes menu
entries, so this holds of every state the program reaches. -/
def CurrentLinesInMenu (st : AppState) : Prop :=
  ∀ o, st.current_order = some o → ∀ l ∈ o.items,
    (dictGet st.menu l.name).isSome = true

/-- One `applyOp` step with a fixed catalog, from a state whose catalog is
coherent and whose pending lines name menu entries: the menu is untouched,
the pending-lines property is preserved (so completion never hits the
`KeyError` path), and every inventory entry drops by exactly the consumption
the step appended to the completed-order history. -/
theorem applyOp_ledger_step (st : AppState) (op : Op)
    (hop : op.isMenuUpsert = false)
    (hmenu : MenuCoherent st.menu)
    (hcur : CurrentLinesInMenu st) :
    (applyOp st op).menu = st.menu ∧
    CurrentLinesInMenu (applyOp st op) ∧
    ∀ g it, dictGet st.inventory g = some it →
      dictGet (applyOp st op).inventory g = some
        { it with quantity := it.quantity -
            (historyConsumption st.menu (applyOp st op).orders g -
             historyConsumption st.menu st.orders g) } := by
  rcases applyOp_cases st op with h | ⟨c, -, -, h⟩ | ⟨nm, q, o, mi, -, hco, hmi, -, h⟩ |
    ⟨o, st', -, hco, -, hc, h⟩ | ⟨o, stc, -, hco, -, hcrash, h⟩ | ⟨o, -, -, -, h⟩ |
    ⟨name, price, category, ingredients, m, hop', -, -⟩
  · rw [h]
    exact ⟨rfl, hcur, fun g it hg => ledger_unchanged_goal hg _ (by simp)⟩
  · rw [h]
    refine ⟨rfl, ?_, fun g it hg => ledger_unchanged_goal hg _ (by simp)⟩
    intro o' ho' l hl
    have heq : Order.new st.order_counter c = o' := by simpa using ho'
    rw [← heq] at hl
    simp [Order.new] at hl
  · rw [h]
    refine ⟨rfl, ?_, fun g it hg => ledger_unchanged_goal hg _ (by simp)⟩
    intro o' ho' l hl
    have heq : o.add_item mi q = o' := by simpa using ho'
    rw [← heq] at hl
    show (dictGet st.menu l.name).isSome = true
    simp only [Order.add_item, List.mem_append, List.mem_singleton] at hl
    rcases hl with hl | hl
    · exact hcur o hco l hl
    · subst hl
      show (dictGet st.menu mi.name).isSome = true
      rw [hmenu nm mi hmi, hmi]
      rfl
  · obtain ⟨hm2, horders, -, -, -, hded⟩ := complete_order_ok hc
    rw [h]
    refine ⟨hm2, ?_, fun g it hg => ?_⟩
    · intro o' ho'
      simp at ho'
    · have hv := dictGet_deductItems hded g
      rw [hg, Option.map_some'] at hv
      show dictGet st'.inventory g = some { it with quantity := it.quantity -
        (historyConsumption st.menu st'.orders g - historyConsumption st.menu st.orders g) }
      rw [hv, horders, historyConsumption_append, historyConsumption_completed]
      congr 2
      ring
  · exfalso
    obtain ⟨inv', hinv'⟩ := deductItems_ok_of_mem (hcur o hco) st.inventory
    simp [complete_order, hinv'] at hcrash
  · rw [h]
    refine ⟨rfl, ?_, fun g it hg => ledger_unchanged_goal hg _ ?_⟩
    · intro o' ho'
      simp at ho'
    · show historyConsumption st.menu (st.orders ++ _) g - _ = 0
      rw [historyConsumption_append, historyConsumption_cancelled]
      ring
  · rw [hop'] at hop
    simp [Op.isMenuUpsert] at hop

/-- Trace-level ledger accounting with a fixed catalog, from a state whose
catalog is coherent and whose pending lines name menu entries (as any state
the program builds does). -/
theorem runOps_ledger (ops : List Op) (st0 : AppState)
    (hops : ∀ op ∈ ops, op.isMenuUpsert = false)
    (hmenu : MenuCoherent st0.menu)
    (hcur : CurrentLinesInMenu st0) :
    (runOps st0 ops).menu = st0.menu ∧
    CurrentLinesInMenu (runOps st0 ops) ∧
    ∀ g it, dictGet st0.inventory g = some it →
      dictGet (runOps st0 ops).inventory g = some
        { it with quantity := it.quantity -
            (historyConsumption st0.menu (runOps st0 ops).orders g -
             historyConsumption st0.menu st0.orders g) } := by
  induction ops generalizing st0 with
  | nil =>
    exact ⟨rfl, hcur, fun g it hg => ledger_unchanged_goal hg _ (sub_self _)⟩
  | cons op ops ih =>
    have hop : op.isMenuUpsert = false := hops op (List.mem_cons_self op ops)
    have hops' : ∀ x ∈ ops, x.isMenuUpsert = false := fun x hx =>
      hops x (List.mem_cons_of_mem op hx)
    obtain ⟨hmenu1, hcur1, hled1⟩ := applyOp_ledger_step st0 op hop hmenu hcur
    have hmenu' : MenuCoherent (applyOp st0 op).menu := by
      rw [hmenu1]
      exact hmenu
    obtain ⟨hmenu2, hcur2, hled2⟩ := ih (applyOp st0 op) hops' hmenu' hcur1
    have hrun : runOps st0 (op :: ops) = runOps (applyOp st0 op) ops := rfl
    refine ⟨by rw [hrun, hmenu2, hmenu1], by rw [hrun]; exact hcur2, fun g it hg => ?_⟩
    have h1 := hled1 g it hg
    have h2 := hled2 g _ h1
    rw [hrun, h2]
    congr 2
    rw [hmenu1]
    ring

/-- One `applyOp` step keeps `daily_sales` in step with the completed orders'
totals. -/
theorem applyOp_sales_step (st : AppState) (op : Op) :
    (applyOp st op).daily_sales - completedTotal (applyOp st op).orders =
      st.daily_sales - completedTotal st.orders := by
  rcases applyOp_cases st op with h | ⟨c, -, -, h⟩ | ⟨nm, q, o, mi, -, -, -, -, h⟩ |
    ⟨o, st', -, -, -, hc, h⟩ | ⟨o, stc, -, -, -, hcrash, h⟩ | ⟨o, -, -, -, h⟩ |
    ⟨name, price, category, ingredients, m, -, -, h⟩ <;> rw [h]
  · obtain ⟨-, horders, hsales, -, -, -⟩ := complete_order_ok hc
    show st'.daily_sales - completedTotal st'.orders = _
    rw [horders, hsales, completedTotal_append, completedTotal_completed]
    ring
  · obtain ⟨-, horders, hsales, -, -, -⟩ := complete_order_error hcrash
    rw [horders, hsales]
  · show st.daily_sales - completedTotal (st.orders ++ _) = _
    rw [completedTotal_append, completedTotal_cancelled]
    ring

/-- Trace-level sales accounting: the daily-sales accumulator always leads the
completed orders' summed totals by the same constant. -/
theorem runOps_sales (ops : List Op) (st0 : AppState) :
    (runOps st0 ops).daily_sales - completedTotal (runOps st0 ops).orders =
      st0.daily_sales - completedTotal st0.orders := by
  induction ops generalizing st0 with
  | nil => rfl
  | cons op ops ih =>
    have hrun : runOps st0 (op :: ops) = runOps (applyOp st0 op) ops := rfl
    rw [hrun, ih (applyOp st0 op), applyOp_sales_step]

/-! ## Order bookkeeping invariant -/

/-- The per-order bookkeeping invariant: the running total is the sum of the
line subtotals, and every line's subtotal is its snapshot price times its
quantity. -/
def OrderOK (o : Order) : Prop :=
  o.total = (o.items.map OrderLine.subtotal).sum ∧
  ∀ l ∈ o.items, l.subtotal = l.price * (l.quantity : Money)

theorem OrderOK_new (order_id : Nat) (c : String) :
    OrderOK (Order.new order_id c) := by
  constructor <;> simp [Order.new]

theorem OrderOK_add_item {o : Order} (h : OrderOK o) (mi : MenuItem) (q : Nat) :
    OrderOK (o.add_item mi q) := by
  obtain ⟨ht, hl⟩ := h
  constructor
  · simp [Order.add_item, ht]
  · intro l hlmem
    simp only [Order.add_item, List.mem_append, List.mem_singleton] at hlmem
    rcases hlmem with hlmem | hlmem
    · exact hl l hlmem
    · subst hlmem
      rfl

theorem OrderOK_status {o : Order} (s : OrderStatus) (h : OrderOK o) :
    OrderOK { o with status := s } := h

/-- The state-wide version: the current order and every order in history obey
`OrderOK`. -/
def StateOK (st : AppState) : Prop :=
  (∀ o, st.current_order = some o → OrderOK o) ∧ ∀ o ∈ st.orders, OrderOK o

theorem StateOK_applyOp {st : AppState} (h : StateOK st) (op : Op) :
    StateOK (applyOp st op) := by
  obtain ⟨hcur, hhist⟩ := h
  rcases applyOp_cases st op with heq | ⟨c, -, -, heq⟩ |
    ⟨nm, q, o, mi, -, hco, -, -, heq⟩ | ⟨o, st', -, hco, -, hc, heq⟩ |
    ⟨o, stc, -, hco, -, hcrash, heq⟩ |
    ⟨o, -, hco, -, heq⟩ | ⟨name, price, category, ingredients, m, -, -, heq⟩ <;>
    rw [heq]
  · exact ⟨hcur, hhist⟩
  · refine ⟨fun o' ho' => ?_, hhist⟩
    have : Order.new st.order_counter c = o' := by simpa using ho'
    rw [← this]
    exact OrderOK_new _ _
  · refine ⟨fun o' ho' => ?_, hhist⟩
    have : o.add_item mi q = o' := by simpa using ho'
    rw [← this]
    exact OrderOK_add_item (hcur o hco) mi q
  · obtain ⟨-, horders, -, -, -, -⟩ := complete_order_ok hc
    refine ⟨fun o' ho' => by simp at ho', fun o' ho' => ?_⟩
    have ho'' : o' ∈ st'.orders := ho'
    rw [horders, List.mem_append, List.mem_singleton] at ho''
    rcases ho'' with ho'' | ho''
    · exact hhist o' ho''
    · rw [ho'']
      exact OrderOK_status _ (hcur o hco)
  · obtain ⟨-, horders, -, -, hcuro, -⟩ := complete_order_error hcrash
    refine ⟨fun o' ho' => hcur o' (by rw [← hcuro]; exact ho'),
      fun o' ho' => hhist o' (by rw [← horders]; exact ho')⟩
  · refine ⟨fun o' ho' => by simp at ho', fun o' ho' => ?_⟩
    have ho'' : o' ∈ st.orders ++ [{ o with status := .cancelled }] := ho'
    rw [List.mem_append, List.mem_singleton] at ho''
    rcases ho'' with ho'' | ho''
    · exact hhist o' ho''
    · rw [ho'']
      exact OrderOK_status _ (hcur o hco)
  · exact ⟨hcur, hhist⟩

theorem StateOK_runOps {st0 : AppState} (h : StateOK st0) (ops : List Op) :
    StateOK (runOps st0 ops) := by
  induction ops generalizing st0 with
  | nil => exact h
  | cons op ops ih => exact ih (StateOK_applyOp h op)

theorem StateOK_initState : StateOK initState := by
  constructor
  · intro o ho
    simp [initState] at ho
  · intro o ho
    simp [initState] at ho

/-! ## The availability check: characterizations -/

/-- `List.find?` finds the *first* match: the list splits into a prefix of
non-matches, the found element, and a tail. -/
theorem find?_eq_some_split {α : Type} {p : α → Bool} {l : List α} {a : α}
    (h : l.find? p = some a) :
    ∃ l1 l2, l = l1 ++ a :: l2 ∧ (∀ x ∈ l1, p x = false) ∧ p a = true := by
  induction l with
  | nil => simp [List.find?] at h
  | cons b l ih =>
    cases hb : p b with
    | true =>
      rw [List.find?_cons_of_pos _ hb] at h
      simp only [Option.some.injEq] at h
      subst h
      exact ⟨[], l, rfl, by simp, hb⟩
    | false =>
      rw [List.find?_cons_of_neg _ (by simp [hb])] at h
      obtain ⟨l1, l2, hsplit, hl1, ha⟩ := ih h
      refine ⟨b :: l1, l2, by rw [hsplit]; rfl, ?_, ha⟩
      intro x hx
      rcases List.mem_cons.mp hx with rfl | hx
      · exact hb
      · exact hl1 x hx

/-- When the availability loop accepts a line, every recipe ingredient that is
present in the ledger has at least the requested quantity. -/
theorem findDeficient_none {inv : Inventory} {ing : List String} {q : Nat}
    (h : findDeficient inv ing q = none) :
    ∀ g ∈ ing, ∀ it, dictGet inv g = some it → (q : Int) ≤ it.quantity := by
  intro g hg it hit
  rw [findDeficient, List.find?_eq_none] at h
  have hgf := h g hg
  rw [hit] at hgf
  simp only [decide_eq_true_eq] at hgf
  omega

/-! ## Popularity aggregation lemmas -/

/-- The quantity of item `nm` summed over a list of order lines (the
specification's reading of the aggregation). -/
def linesQty (items : List OrderLine) (nm : String) : Nat :=
  ((items.filter fun l => decide (l.name = nm)).map OrderLine.quantity).sum

/-- The specification's value for `popular_items`: the total quantity of item
`nm` over all completed orders' lines. -/
def specTotalQty (orders : List Order) (nm : String) : Nat :=
  ((completedOrders orders).map fun o => linesQty o.items nm).sum

theorem dictGetD_countStep (acc : Dict Nat) (l : OrderLine) (nm : String) :
    (dictGet (countStep acc l) nm).getD 0 =
      (dictGet acc nm).getD 0 + if l.name = nm then l.quantity else 0 := by
  unfold countStep
  rw [dictGet_dictSet]
  by_cases hnm : l.name = nm
  · simp [hnm]
  · simp [hnm]

theorem dictGetD_foldl_countStep (items : List OrderLine) (acc : Dict Nat)
    (nm : String) :
    (dictGet (items.foldl countStep acc) nm).getD 0 =
      (dictGet acc nm).getD 0 + linesQty items nm := by
  induction items generalizing acc with
  | nil => simp [linesQty]
  | cons l rest ih =>
    rw [List.foldl_cons, ih, dictGetD_countStep]
    by_cases hnm : l.name = nm
    · simp [linesQty, hnm, List.filter_cons]
      omega
    · simp [linesQty, hnm, List.filter_cons]

theorem dictGetD_item_count (completed : List Order) (nm : String) :
    (dictGet (item_count completed) nm).getD 0 =
      ((completed.map fun o => linesQty o.items nm).sum) := by
  suffices h : ∀ acc : Dict Nat,
      (dictGet (completed.foldl (fun acc o => o.items.foldl countStep acc) acc) nm).getD 0 =
        (dictGet acc nm).getD 0 + (completed.map fun o => linesQty o.items nm).sum by
    have := h []
    simpa [item_count, dictGet] using this
  induction completed with
  | nil => simp
  | cons o rest ih =>
    intro acc
    rw [List.foldl_cons, ih, dictGetD_foldl_countStep]
    simp
    omega

theorem popular_items_mem (orders : List Order) (p : String × Nat) :
    p ∈ popular_items orders ↔ p ∈ item_count (completedOrders orders) := by
  unfold popular_items
  rw [List.mem_reverse]
  exact (List.perm_insertionSort _ _).mem_iff

theorem popular_items_sorted (orders : List Order) :
    (popular_items orders).Pairwise fun a b : String × Nat => b.2 ≤ a.2 := by
  haveI h1 : IsTotal (String × Nat) (fun a b => a.2 ≤ b.2) :=
    ⟨fun a b => Nat.le_total a.2 b.2⟩
  haveI h2 : IsTrans (String × Nat) (fun a b => a.2 ≤ b.2) :=
    ⟨fun a b c hab hbc => Nat.le_trans hab hbc⟩
  have hsorted := List.sorted_insertionSort (fun a b : String × Nat => a.2 ≤ b.2)
    (item_count (completedOrders orders))
  unfold popular_items
  rw [List.pairwise_reverse]
  exact List.Pairwise.imp (fun h => h) hsorted

/-! ## Concrete fixtures -/

/-- A one-ingredient Espresso catalog entry used by the C1 counterexample. -/
def espressoBeansOnly : MenuItem :=
  { name := "Espresso", price := 2.5, category := "Coffee",
    ingredients := ["Coffee beans"] }

/-- Catalog: just Espresso; ledger: 3 kg of beans. -/
def C1_state : AppState :=
  { menu := [("Espresso", espressoBeansOnly)],
    inventory := [("Coffee beans",
      { name := "Coffee beans", quantity := 3, unit := "kg", min_stock := 0 })],
    orders := [], order_counter := 1, daily_sales := 0, current_order := none }

/-- A small shop used for witnesses: Espresso (beans + water), ample stock. -/
def C1w_state : AppState :=
  { menu := [("Espresso", { name := "Espresso", price := 2.5, category := "Coffee",
                            ingredients := ["Coffee beans", "Water"] })],
    inventory := [("Coffee beans",
      { name := "Coffee beans", quantity := 100, unit := "kg", min_stock := 20 }),
      ("Water", { name := "Water", quantity := 200, unit := "liters", min_stock := 50 })],
    orders := [], order_counter := 2, daily_sales := 0, current_order := none }

/-- A pending single-line order: 3 Espresso at the snapshot price 2.50. -/
def C1w_order : Order :=
  { order_id := 1, customer_name := "Walk-in",
    items := [{ name := "Espresso", price := 2.5, quantity := 3,
                category := "Coffee", subtotal := 7.5 }],
    total := 7.5, status := .pending }

/-- The state `complete_order` produces on the witness shop. -/
def C1w_final : AppState := (complete_order C1w_state C1w_order).toOption.getD C1w_state

/-- An already-completed order over the default catalog. -/
def C2_done_order : Order :=
  { order_id := 1, customer_name := "Walk-in",
    items := [{ name := "Espresso", price := 2.5, quantity := 1,
                category := "Coffee", subtotal := 2.5 }],
    total := 2.5, status := .completed }

/-- The session after that order was completed once. -/
def C2_state : AppState :=
  { menu := default_menu, inventory := default_inventory,
    orders := [C2_done_order], order_counter := 2, daily_sales := 2.5,
    current_order := none }

/-- A menu item whose only ingredient is absent from the ledger. -/
def ghostItem : MenuItem :=
  { name := "Ghost Latte", price := 9.5, category := "Coffee",
    ingredients := ["Unicorn dust"] }

/-- Catalog: just the ghost item; ledger: the defaults (no "Unicorn dust");
one empty pending order. -/
def C3_state : AppState :=
  { menu := [("Ghost Latte", ghostItem)], inventory := default_inventory,
    orders := [], order_counter := 2, daily_sales := 0,
    current_order := some (Order.new 1 "Walk-in") }

/-- Default session with an empty pending order (for the C3 witness). -/
def C3w_state : AppState :=
  { menu := default_menu, inventory := default_inventory, orders := [],
    order_counter := 2, daily_sales := 0,
    current_order := some (Order.new 1 "Walk-in") }

/-- The Espresso scenario of the spec, on the default session. -/
def C6_trace : List Op :=
  [.startOrder "Walk-in", .addLine "Espresso" 3, .completeOrder]

/-! ## C1 -/

/-- C1, counterexample.  The availability check is read-only, so the two
`add_line (Espresso, 3)` calls of one pending order are both validated
against the same un-decremented ledger (beans = 3) and both accepted; at
completion the total decrement is 6 and the beans quantity ends at −3,
refuting "executing complete_order leaves every inventory item's quantity
non-negative" and "[the total decrement] never exceeds the stock that was
available". -/
theorem C1_counterexample :
    ((runOps C1_state [.startOrder "Walk-in", .addLine "Espresso" 3]).current_order.map
        fun o => o.items.length) = some 1 ∧
    (runOps C1_state [.startOrder "Walk-in", .addLine "Espresso" 3]).inventory =
      C1_state.inventory ∧
    ((runOps C1_state [.startOrder "Walk-in", .addLine "Espresso" 3,
        .addLine "Espresso" 3]).current_order.map fun o => o.items.length) = some 2 ∧
    dictGet (runOps C1_state [.startOrder "Walk-in", .addLine "Espresso" 3,
        .addLine "Espresso" 3, .completeOrder]).inventory "Coffee beans" =
      some { name := "Coffee beans", quantity := -3, unit := "kg", min_stock := 0 } := by
  decide

/-- C1, amended: the non-negativity guarantee holds for a pending order with a
single accepted line whose recipe has no duplicate ingredient (more generally
whenever no ingredient is consumed twice); with two lines sharing an
ingredient the per-line checks are against the same un-decremented ledger and
stock can go negative (see the counterexample). -/
theorem C1_overselling_amended (st : AppState) (o : Order) (l : OrderLine)
    (mi : MenuItem) (st' : AppState)
    (hitems : o.items = [l])
    (hmi : dictGet st.menu l.name = some mi)
    (hnodup : mi.ingredients.Nodup)
    (hacc : findDeficient st.inventory mi.ingredients l.quantity = none)
    (hnonneg : ∀ g it, dictGet st.inventory g = some it → 0 ≤ it.quantity)
    (hc : complete_order st o = .ok st') :
    ∀ g it, dictGet st'.inventory g = some it → 0 ≤ it.quantity := by
  obtain ⟨-, -, -, -, -, hded⟩ := complete_order_ok hc
  intro g it' hit'
  have hv := dictGet_deductItems hded g
  rw [hit'] at hv
  cases hg : dictGet st.inventory g with
  | none => rw [hg] at hv; simp at hv
  | some it =>
    rw [hg, Option.map_some'] at hv
    simp only [Option.some.injEq] at hv
    have hq : it'.quantity = it.quantity - itemsConsumption st.menu o.items g := by
      rw [hv]
    have hcons : itemsConsumption st.menu o.items g =
        (mi.ingredients.count g : Int) * (l.quantity : Int) := by
      rw [hitems]
      simp [itemsConsumption, lineConsumption, hmi]
    by_cases hmem : g ∈ mi.ingredients
    · have hcount : mi.ingredients.count g = 1 :=
        List.count_eq_one_of_mem hnodup hmem
      have hge := findDeficient_none hacc g hmem it hg
      rw [hq, hcons, hcount]
      push_cast
      omega
    · have hcount : mi.ingredients.count g = 0 :=
        List.count_eq_zero_of_not_mem hmem
      rw [hq, hcons, hcount]
      simpa using hnonneg g it hg

/-- The beans entry completion leaves in the witness shop (97 kg). -/
def C1w_beans_after : InventoryItem :=
  { name := "Coffee beans", quantity := 97, unit := "kg", min_stock := 20 }

/-- Witness for the amended C1, on the concrete witness shop, instantiated at
the beans entry left by completion. -/
theorem C1_overselling_amended_witness :
    (0 : Int) ≤ C1w_beans_after.quantity := by
  refine C1_overselling_amended C1w_state C1w_order
    { name := "Espresso", price := 2.5, quantity := 3, category := "Coffee",
      subtotal := 7.5 }
    { name := "Espresso", price := 2.5, category := "Coffee",
      ingredients := ["Coffee beans", "Water"] }
    C1w_final rfl (by with_unfolding_all decide) (by decide)
    (by with_unfolding_all decide) ?_ (by with_unfolding_all rfl)
    "Coffee beans" C1w_beans_after (by with_unfolding_all decide)
  intro g it hgit
  have hmem := dictGet_mem hgit
  simp [C1w_state] at hmem
  rcases hmem with ⟨-, h⟩ | ⟨-, h⟩ <;> subst h <;> decide

/-! ## C2 -/

/-- C2, counterexample.  The code has no `InvalidStateError` and no status
guard: on the already-completed `C2_done_order`, `complete_order` does not
fail and decrements the beans again (100 → 99), doubles the daily sales
(2.5 → 5) and re-appends the order to history; `Order.add_item` happily
appends a second line; the cancel handler re-finalizes it as cancelled. -/
theorem C2_counterexample :
    C2_done_order.status = .completed ∧
    (complete_order C2_state C2_done_order).toOption.isSome = true ∧
    ((complete_order C2_state C2_done_order).toOption.map fun st =>
        dictGet st.inventory "Coffee beans") =
      some (some { name := "Coffee beans", quantity := 99, unit := "kg",
                   min_stock := 20 }) ∧
    ((complete_order C2_state C2_done_order).toOption.map AppState.daily_sales) =
      some 5 ∧
    ((complete_order C2_state C2_done_order).toOption.map fun st =>
        st.orders.length) = some 2 ∧
    (C2_done_order.add_item espressoBeansOnly 1).items.length = 2 ∧
    (applyOp { C2_state with current_order := some C2_done_order }
        .cancelOrder).orders.map Order.status = [.completed, .cancelled] := by
  with_unfolding_all decide

/-- C2, amended: none of the three operations inspects the order's status —
each behaves on a non-pending order exactly as on a pending one (the source
defines no `InvalidStateError`; only the UI flow, which clears
`current_order` on finalization, keeps them applied to pending orders). -/
theorem C2_status_blind_amended (st : AppState) (o : Order) (s : OrderStatus)
    (mi : MenuItem) (q : Nat) :
    ({ o with status := s } : Order).add_item mi q =
      { o.add_item mi q with status := s } ∧
    complete_order st { o with status := s } = complete_order st o ∧
    (applyOp { st with current_order := some { o with status := s } }
        .cancelOrder).orders =
      (applyOp { st with current_order := some o } .cancelOrder).orders := by
  refine ⟨rfl, rfl, ?_⟩
  by_cases h : o.items = [] <;> simp [applyOp, h]

/-! ## C3 -/

/-- C3, counterexample.  "Unicorn dust" is absent from the ledger, so its
available stock is 0 < 5, and the claim demands rejection; but the
availability loop skips ingredients that are not in the inventory dict, so the
line is accepted: the order gains a line and its total rises to 47.50. -/
theorem C3_counterexample :
    dictGet C3_state.inventory "Unicorn dust" = none ∧
    findDeficient C3_state.inventory ghostItem.ingredients 5 = none ∧
    ((applyOp C3_state (.addLine "Ghost Latte" 5)).current_order.map
        fun o => o.items.length) = some 1 ∧
    ((applyOp C3_state (.addLine "Ghost Latte" 5)).current_order.map Order.total) =
      some 47.5 := by
  with_unfolding_all decide

/-- C3, amended: the insufficiency check applies only to ingredients *present
in the ledger* (absent ones are skipped, not treated as available 0).  If some
present recipe ingredient has stock < requested quantity, the line is
rejected; the ingredient named is the first present-and-deficient one in
recipe order (everything before it in the recipe is, if present, sufficient),
and the whole state — order and ledger — is left unchanged. -/
theorem C3_present_only_check_amended (st : AppState) (o : Order) (nm : String)
    (mi : MenuItem) (q : Nat)
    (hco : st.current_order = some o)
    (hmi : dictGet st.menu nm = some mi)
    (hdef : ∃ g ∈ mi.ingredients, ∃ it, dictGet st.inventory g = some it ∧
      it.quantity < (q : Int)) :
    applyOp st (.addLine nm q) = st ∧
    ∃ g l1 l2, findDeficient st.inventory mi.ingredients q = some g ∧
      mi.ingredients = l1 ++ g :: l2 ∧
      (∃ it, dictGet st.inventory g = some it ∧ it.quantity < (q : Int)) ∧
      ∀ x ∈ l1, ∀ it, dictGet st.inventory x = some it → (q : Int) ≤ it.quantity := by
  obtain ⟨gd, hgdmem, itd, hitd, hltd⟩ := hdef
  have hsome : (findDeficient st.inventory mi.ingredients q).isSome := by
    rw [findDeficient, List.find?_isSome]
    refine ⟨gd, hgdmem, ?_⟩
    rw [hitd]
    simpa using hltd
  cases hfd : findDeficient st.inventory mi.ingredients q with
  | none => rw [hfd] at hsome; simp at hsome
  | some g =>
    refine ⟨by simp [applyOp, hco, hmi, hfd], g, ?_⟩
    rw [findDeficient] at hfd
    obtain ⟨l1, l2, hsplit, hl1, hg⟩ := find?_eq_some_split hfd
    refine ⟨l1, l2, rfl, hsplit, ?_, ?_⟩
    · cases hgi : dictGet st.inventory g with
      | none => rw [hgi] at hg; simp at hg
      | some it =>
        rw [hgi] at hg
        simp only [decide_eq_true_eq] at hg
        exact ⟨it, rfl, hg⟩
    · intro x hx it hxit
      have hfx := hl1 x hx
      rw [hxit] at hfx
      simp only [decide_eq_false_iff_not] at hfx
      omega

/-- Witness for the amended C3: ordering 1000 Espresso on the default session
is rejected (beans = 100 < 1000) and mutates nothing. -/
theorem C3_present_only_check_amended_witness :
    applyOp C3w_state (.addLine "Espresso" 1000) = C3w_state ∧
    ∃ g l1 l2, findDeficient C3w_state.inventory
        ["Coffee beans", "Water"] 1000 = some g ∧
      (["Coffee beans", "Water"] : List String) = l1 ++ g :: l2 ∧
      (∃ it, dictGet C3w_state.inventory g = some it ∧
        it.quantity < ((1000 : Nat) : Int)) ∧
      ∀ x ∈ l1, ∀ it, dictGet C3w_state.inventory x = some it →
        ((1000 : Nat) : Int) ≤ it.quantity :=
  C3_present_only_check_amended C3w_state (Order.new 1 "Walk-in") "Espresso"
    { name := "Espresso", price := 2.5, category := "Coffee",
      ingredients := ["Coffee beans", "Water"] }
    1000 rfl (by with_unfolding_all decide)
    ⟨"Coffee beans", by decide,
      { name := "Coffee beans", quantity := 100, unit := "kg", min_stock := 20 },
      by with_unfolding_all decide, by decide⟩

/-! ## C6 -/

/-- C6: the spec's Espresso scenario on the default session (whose catalog has
Espresso at 2.50 with ingredients beans+water, and whose ledger has
beans = 100, water = 200): order 1 is started, the line (Espresso, 3) is
accepted with total 7.50, and completion leaves beans = 97, water = 197,
daily sales 7.50 and the order completed. -/
theorem C6_espresso_scenario :
    dictGet initState.menu "Espresso" =
      some { name := "Espresso", price := 2.5, category := "Coffee",
             ingredients := ["Coffee beans", "Water"] } ∧
    ((runOps initState [.startOrder "Walk-in", .addLine "Espresso" 3]).current_order.map
        Order.total) = some 7.5 ∧
    ((runOps initState [.startOrder "Walk-in", .addLine "Espresso" 3]).current_order.map
        Order.order_id) = some 1 ∧
    dictGet (runOps initState C6_trace).inventory "Coffee beans" =
      some { name := "Coffee beans", quantity := 97, unit := "kg", min_stock := 20 } ∧
    dictGet (runOps initState C6_trace).inventory "Water" =
      some { name := "Water", quantity := 197, unit := "liters", min_stock := 50 } ∧
    (runOps initState C6_trace).daily_sales = 7.5 ∧
    (runOps initState C6_trace).orders.map Order.status = [.completed] ∧
    (runOps initState C6_trace).orders.map Order.total = [7.5] := by
  with_unfolding_all decide

/-! ## C4 -/

/-- The completed order the Espresso scenario leaves in history. -/
def C6_completed_order : Order :=
  { order_id := 1, customer_name := "Walk-in",
    items := [{ name := "Espresso", price := 2.5, quantity := 3,
                category := "Coffee", subtotal := 7.5 }],
    total := 7.5, status := .completed }

/-- C4: `Order.add_item` preserves the bookkeeping invariant (total = sum of
line subtotals, each subtotal = snapshot price × quantity), so the invariant
holds of the current order and of every order in history after any sequence
of UI events — in particular of every completed order. -/
theorem C4_total_eq_sum_subtotals :
    (∀ (o : Order) (mi : MenuItem) (q : Nat), OrderOK o → OrderOK (o.add_item mi q)) ∧
    ∀ ops : List Op,
      (∀ o, (runOps initState ops).current_order = some o → OrderOK o) ∧
      ∀ o ∈ (runOps initState ops).orders, OrderOK o :=
  ⟨fun o mi q h => OrderOK_add_item h mi q,
   fun ops => StateOK_runOps StateOK_initState ops⟩

/-- Witness for C4 on the Espresso scenario. -/
theorem C4_total_eq_sum_subtotals_witness :
    OrderOK ((Order.new 1 "Walk-in").add_item espressoBeansOnly 2) ∧
    OrderOK C6_completed_order :=
  ⟨C4_total_eq_sum_subtotals.1 (Order.new 1 "Walk-in") espressoBeansOnly 2
      (OrderOK_new 1 "Walk-in"),
   (C4_total_eq_sum_subtotals.2 C6_trace).2 C6_completed_order
      (by with_unfolding_all decide)⟩

/-! ## C5 -/

theorem addLine_inventory_frame (st : AppState) (nm : String) (q : Nat) :
    (applyOp st (.addLine nm q)).inventory = st.inventory := by
  rcases applyOp_cases st (.addLine nm q) with h | ⟨c, hop, -, h⟩ |
    ⟨nm', q', o, mi, -, -, -, -, h⟩ | ⟨o, st', hop, -, -, -, h⟩ |
    ⟨o, stc, hop, -, -, -, h⟩ | ⟨o, hop, -, -, h⟩ | ⟨n, p, c, i, m, hop, -, h⟩
  · rw [h]
  · exact absurd hop (by simp)
  · rw [h]
  · exact absurd hop (by simp)
  · exact absurd hop (by simp)
  · exact absurd hop (by simp)
  · exact absurd hop (by simp)

theorem cancelOrder_frame (st : AppState) :
    (applyOp st .cancelOrder).inventory = st.inventory ∧
    (applyOp st .cancelOrder).daily_sales = st.daily_sales := by
  rcases applyOp_cases st .cancelOrder with h | ⟨c, hop, -, h⟩ |
    ⟨nm', q', o, mi, hop, -, -, -, h⟩ | ⟨o, st', hop, -, -, -, h⟩ |
    ⟨o, stc, hop, -, -, -, h⟩ | ⟨o, -, -, -, h⟩ | ⟨n, p, c, i, m, hop, -, h⟩
  · rw [h]; exact ⟨rfl, rfl⟩
  · exact absurd hop (by simp)
  · exact absurd hop (by simp)
  · exact absurd hop (by simp)
  · exact absurd hop (by simp)
  · rw [h]; exact ⟨rfl, rfl⟩
  · exact absurd hop (by simp)

/-- C5: `addLine` never touches the inventory (its availability check is
read-only); `cancelOrder` touches neither inventory nor daily sales; and over
any run of order-processing events (no catalog edits, so every order's recipe
is the fixed one) from a state whose catalog is coherent and whose pending
lines name menu entries — as in every state the program builds, so the
`KeyError` crash path of `complete_order` is never reached — each ledger
entry that was present initially ends at its initial quantity minus the total
consumption of the completed orders the run appended to history. -/
theorem C5_frame_and_ledger_accounting (st0 : AppState) (ops : List Op)
    (hops : ∀ op ∈ ops, op.isMenuUpsert = false)
    (hmenu : MenuCoherent st0.menu)
    (hcur : CurrentLinesInMenu st0) :
    (∀ (st : AppState) (nm : String) (q : Nat),
      (applyOp st (.addLine nm q)).inventory = st.inventory) ∧
    (∀ st : AppState, (applyOp st .cancelOrder).inventory = st.inventory ∧
      (applyOp st .cancelOrder).daily_sales = st.daily_sales) ∧
    ∀ g it, dictGet st0.inventory g = some it →
      dictGet (runOps st0 ops).inventory g = some
        { it with quantity := it.quantity -
            (historyConsumption st0.menu (runOps st0 ops).orders g -
             historyConsumption st0.menu st0.orders g) } :=
  ⟨fun st nm q => addLine_inventory_frame st nm q,
   fun st => cancelOrder_frame st,
   (runOps_ledger ops st0 hops hmenu hcur).2.2⟩

/-- The default catalog stores each item under its own name. -/
theorem default_menu_coherent : MenuCoherent default_menu := by
  intro k mi h
  have hall : ∀ p ∈ default_menu, (Prod.snd p).name = p.1 := by decide
  exact hall (k, mi) (dictGet_mem h)

/-- The fresh session has no pending order. -/
theorem initState_current_lines : CurrentLinesInMenu initState := by
  intro o ho
  simp [initState] at ho

/-- Witness for C5 on the Espresso scenario. -/
theorem C5_frame_and_ledger_accounting_witness :
    dictGet (runOps initState C6_trace).inventory "Coffee beans" = some
      { name := "Coffee beans",
        quantity := (100 : Int) -
          (historyConsumption initState.menu (runOps initState C6_trace).orders
              "Coffee beans" -
           historyConsumption initState.menu initState.orders "Coffee beans"),
        unit := "kg", min_stock := 20 } :=
  (C5_frame_and_ledger_accounting initState C6_trace (by decide)
      default_menu_coherent initState_current_lines).2.2 "Coffee beans"
    { name := "Coffee beans", quantity := 100, unit := "kg", min_stock := 20 }
    (by decide)

/-! ## C7 -/

/-- C7: on any reachable session, if history holds no completed order the
report is (0, 0, 0) — the average comes from the `if completed_orders:` guard,
not from a division — and with at least one completed order the average is
the daily sales divided by the completed-order count. -/
theorem C7_daily_summary_safe (ops : List Op) :
    (completedOrders (runOps initState ops).orders = [] →
      daily_report (runOps initState ops).orders
        (runOps initState ops).daily_sales = (0, 0, 0)) ∧
    (completedOrders (runOps initState ops).orders ≠ [] →
      (daily_report (runOps initState ops).orders
          (runOps initState ops).daily_sales).2.2 =
        (runOps initState ops).daily_sales /
          ((completedOrders (runOps initState ops).orders).length : Money)) := by
  have hsales := runOps_sales ops initState
  have hinit : initState.daily_sales - completedTotal initState.orders = 0 := by
    simp [initState, completedTotal, completedOrders]
  rw [hinit] at hsales
  have h0 : (runOps initState ops).daily_sales =
      completedTotal (runOps initState ops).orders := sub_eq_zero.mp hsales
  constructor
  · intro hempty
    have hz : completedTotal (runOps initState ops).orders = 0 := by
      rw [completedTotal, hempty]
      simp
    simp [daily_report, hempty, h0, hz]
  · intro hne
    simp [daily_report, hne]

/-- Witness for C7: the fresh session and the Espresso scenario. -/
theorem C7_daily_summary_safe_witness :
    daily_report (runOps initState []).orders (runOps initState []).daily_sales =
      (0, 0, 0) ∧
    (daily_report (runOps initState C6_trace).orders
        (runOps initState C6_trace).daily_sales).2.2 =
      (runOps initState C6_trace).daily_sales /
        ((completedOrders (runOps initState C6_trace).orders).length : Money) :=
  ⟨(C7_daily_summary_safe []).1 (by decide),
   (C7_daily_summary_safe C6_trace).2 (by with_unfolding_all decide)⟩

/-! ## C8 -/

/-- One completed order with a quantity tie: 2 Americano (encountered first),
then 2 Green Tea. -/
def C8_tie_history : List Order :=
  [{ order_id := 1, customer_name := "Walk-in",
     items := [{ name := "Americano", price := 3, quantity := 2,
                 category := "Coffee", subtotal := 6 },
               { name := "Green Tea", price := 2, quantity := 2,
                 category := "Tea", subtotal := 4 }],
     total := 10, status := .completed }]

/-- Two completed orders, each 2 Muffin and 1 Latte (the spec scenario). -/
def C8_muffin_history : List Order :=
  [{ order_id := 1, customer_name := "Walk-in",
     items := [{ name := "Muffin", price := 2.75, quantity := 2,
                 category := "Pastry", subtotal := 5.5 },
               { name := "Latte", price := 4.5, quantity := 1,
                 category := "Coffee", subtotal := 4.5 }],
     total := 10, status := .completed },
   { order_id := 2, customer_name := "Walk-in",
     items := [{ name := "Muffin", price := 2.75, quantity := 2,
                 category := "Pastry", subtotal := 5.5 },
               { name := "Latte", price := 4.5, quantity := 1,
                 category := "Coffee", subtotal := 4.5 }],
     total := 10, status := .completed }] 

/-- C8, counterexample to the tie-break.  pandas renders the descending sort
as the reversal of a stable ascending sort (see `popular_items`), so equal
quantities come out in *reverse* first-encountered order: with Americano
aggregated before Green Tea (both 2), the table is
[Green Tea, Americano] — not the claimed first-encountered order. -/
theorem C8_counterexample :
    item_count (completedOrders C8_tie_history) =
      [("Americano", 2), ("Green Tea", 2)] ∧
    popular_items C8_tie_history = [("Green Tea", 2), ("Americano", 2)] ∧
    popular_items C8_tie_history ≠ [("Americano", 2), ("Green Tea", 2)] := by
  decide

/-- C8, amended: `popular_items` aggregates each name to the sum of that
item's line quantities over completed orders only, and the rows are sorted by
descending quantity; ties, however, appear in *reverse* first-encountered
order (unspecified in general for pandas quicksort), and the Muffin/Latte
scenario holds: 4 Muffin precede 2 Latte. -/
theorem C8_popularity_amended (orders : List Order) :
    (∀ nm, (dictGet (item_count (completedOrders orders)) nm).getD 0 =
      specTotalQty orders nm) ∧
    (∀ p, p ∈ popular_items orders ↔ p ∈ item_count (completedOrders orders)) ∧
    (popular_items orders).Pairwise (fun a b : String × Nat => b.2 ≤ a.2) ∧
    popular_items C8_muffin_history = [("Muffin", 4), ("Latte", 2)] := by
  refine ⟨fun nm => ?_, popular_items_mem orders, popular_items_sorted orders,
    by decide⟩
  rw [dictGetD_item_count]
  rfl

/-! ## C9 -/

/-- The `MenuItem` a catalog upsert stores. -/
def upsertItem (name : String) (price : Money) (category : String)
    (ing : List String) : MenuItem :=
  { name := name, price := price, category := category, ingredients := ing }

/-- C9: the catalog upsert rejects empty name, price ≤ 0 or empty category,
mutating nothing; on valid input it stores the new entry — replacing in place
(same key positions) when the name exists, appending at the end when it is
new — and leaves every other key's entry unchanged. -/
theorem C9_catalog_upsert (st : AppState) (menu : Menu) (name : String)
    (price : Money) (category : String) (ing : List String) :
    ((name = "" ∨ price ≤ 0 ∨ category = "") →
      menu_upsert menu name price category ing = none ∧
      applyOp st (.menuUpsert name price category ing) = st) ∧
    (name ≠ "" → 0 < price → category ≠ "" →
      menu_upsert menu name price category ing =
        some (dictSet menu name (upsertItem name price category ing)) ∧
      dictGet (dictSet menu name (upsertItem name price category ing)) name =
        some (upsertItem name price category ing) ∧
      (∀ k, k ≠ name →
        dictGet (dictSet menu name (upsertItem name price category ing)) k =
          dictGet menu k) ∧
      (dictContains menu name = true →
        (dictSet menu name (upsertItem name price category ing)).map Prod.fst =
          menu.map Prod.fst) ∧
      (dictContains menu name = false →
        dictSet menu name (upsertItem name price category ing) =
          menu ++ [(name, upsertItem name price category ing)])) := by
  constructor
  · intro hbad
    have hnone : ∀ m : Menu, menu_upsert m name price category ing = none := by
      intro m
      rcases hbad with h | h | h
      · simp [menu_upsert, h]
      · by_cases hn : name = "" <;> simp [menu_upsert, hn, h]
      · by_cases hn : name = "" <;> by_cases hp : price ≤ 0 <;>
          simp [menu_upsert, hn, hp, h]
    refine ⟨hnone menu, ?_⟩
    simp [applyOp, hnone st.menu]
  · intro hn hp hc
    refine ⟨by simp [menu_upsert, hn, hc, not_le.mpr hp, upsertItem], ?_, ?_, ?_, ?_⟩
    · rw [dictGet_dictSet]
      simp
    · intro k hk
      rw [dictGet_dictSet, if_neg (Ne.symm hk)]
    · intro hcont
      exact dictSet_keys_of_contains hcont _
    · intro hncont
      exact dictSet_of_not_contains hncont _

/-- Witness for C9: an invalid upsert (empty name) is a no-op on the default
session, and replacing "Espresso" keeps the key order of the default menu. -/
theorem C9_catalog_upsert_witness :
    (menu_upsert default_menu "" 1 "Coffee" [] = none ∧
      applyOp initState (.menuUpsert "" 1 "Coffee" []) = initState) ∧
    menu_upsert default_menu "Espresso" 3 "Coffee" ["Coffee beans"] =
      some (dictSet default_menu "Espresso"
        (upsertItem "Espresso" 3 "Coffee" ["Coffee beans"])) ∧
    (dictSet default_menu "Espresso"
        (upsertItem "Espresso" 3 "Coffee" ["Coffee beans"])).map Prod.fst =
      default_menu.map Prod.fst :=
  ⟨(C9_catalog_upsert initState default_menu "" 1 "Coffee" []).1 (Or.inl rfl),
   ((C9_catalog_upsert initState default_menu "Espresso" 3 "Coffee"
      ["Coffee beans"]).2 (by decide) (by norm_num) (by decide)).1,
   ((C9_catalog_upsert initState default_menu "Espresso" 3 "Coffee"
      ["Coffee beans"]).2 (by decide) (by norm_num) (by decide)).2.2.2.1
     (by decide)⟩

/-! ## C10 -/

/-- Espresso shop for the recipe-edit scenario: recipe beans+water, 10 of
each of beans, milk, water in stock. -/
def C10_state : AppState :=
  { menu := [("Espresso", { name := "Espresso", price := 2.5, category := "Coffee",
                            ingredients := ["Coffee beans", "Water"] })],
    inventory := [("Coffee beans",
      { name := "Coffee beans", quantity := 10, unit := "kg", min_stock := 2 }),
      ("Milk", { name := "Milk", quantity := 10, unit := "liters", min_stock := 2 }),
      ("Water", { name := "Water", quantity := 10, unit := "liters", min_stock := 2 })],
    orders := [], order_counter := 1, daily_sales := 0, current_order := none }

/-- Add 2 Espresso, then edit the Espresso entry (price 99, recipe [Milk]),
then complete. -/
def C10_trace : List Op :=
  [.startOrder "Walk-in", .addLine "Espresso" 2,
   .menuUpsert "Espresso" 99 "Coffee" ["Milk"], .completeOrder]

/-- C10: `complete_order` re-reads each line's catalog entry by name at
completion time — its stock effect on ingredient `g` is the *current* recipe's
multiplicity times the line quantity — while the stored lines themselves are
untouched (the add-time price/category/subtotal snapshots are what history
keeps).  Concretely, editing Espresso's recipe from beans+water to [Milk]
(and its price from 2.50 to 99) between add and complete makes completion
decrement Milk (10 → 8) and leave beans and water at 10, while the stored
line still has price 2.50 and subtotal 5, which is what daily sales grows by. -/
theorem C10_completion_uses_current_recipe (st : AppState) (o : Order)
    (st' : AppState) (hc : complete_order st o = .ok st') :
    (∀ g, dictGet st'.inventory g = (dictGet st.inventory g).map fun it =>
      { it with quantity := it.quantity - itemsConsumption st.menu o.items g }) ∧
    st'.orders = st.orders ++ [{ o with status := .completed }] ∧
    dictGet (runOps C10_state C10_trace).inventory "Milk" =
      some { name := "Milk", quantity := 8, unit := "liters", min_stock := 2 } ∧
    dictGet (runOps C10_state C10_trace).inventory "Coffee beans" =
      some { name := "Coffee beans", quantity := 10, unit := "kg", min_stock := 2 } ∧
    dictGet (runOps C10_state C10_trace).inventory "Water" =
      some { name := "Water", quantity := 10, unit := "liters", min_stock := 2 } ∧
    (runOps C10_state C10_trace).orders.map Order.items =
      [[{ name := "Espresso", price := 2.5, quantity := 2, category := "Coffee",
          subtotal := 5 }]] ∧
    (runOps C10_state C10_trace).daily_sales = 5 ∧
    ((dictGet (runOps C10_state C10_trace).menu "Espresso").map
        MenuItem.ingredients) = some ["Milk"] := by
  obtain ⟨-, horders, -, -, -, hded⟩ := complete_order_ok hc
  exact ⟨fun g => dictGet_deductItems hded g, horders,
    by with_unfolding_all decide, by with_unfolding_all decide,
    by with_unfolding_all decide, by with_unfolding_all decide,
    by with_unfolding_all decide, by with_unfolding_all decide⟩

/-- Witness for C10 on the witness shop. -/
theorem C10_completion_uses_current_recipe_witness :
    dictGet C1w_final.inventory "Coffee beans" =
      (dictGet C1w_state.inventory "Coffee beans").map (fun it =>
        { it with quantity := it.quantity -
            itemsConsumption C1w_state.menu C1w_order.items "Coffee beans" }) ∧
    C1w_final.orders = C1w_state.orders ++ [{ C1w_order with status := .completed }] :=
  ⟨(C10_completion_uses_current_recipe C1w_state C1w_order C1w_final
      (by with_unfolding_all rfl)).1 "Coffee beans",
   (C10_completion_uses_current_recipe C1w_state C1w_order C1w_final
      (by with_unfolding_all rfl)).2.1⟩

end CoffeeShop
